import Mathlib

/-!
Verification development for the TestSuite repository (testsuite.cpp /
testdata.cpp / testsuite.h).  The C++ classes `TestSuite::TestDataRaw`,
`TestSuite::TestData`, the orchestration methods (`one`, `group`, `all`,
`runTests`, `runTest`, `getTest`, `getTests`, `registerTest`) and the line
classification helpers (`startOfData`, `isTestName`, `extractTestName`,
`isComment`) are shallowly embedded below.  The input stream is modelled
at two levels: a character level (for `TestDataRaw::readLine`) and a line
level (for everything layered above it).  Reporter hooks are modelled as
an explicit transcript of events.
-/

set_option maxHeartbeats 1000000

namespace TestSuite

/-- C `isspace` in the default locale: space, tab, newline, vertical tab,
form feed, carriage return. -/
def isspaceC (c : Char) : Bool :=
  c = ' ' || c = '\t' || c = '\n' || c = Char.ofNat 11 || c = Char.ofNat 12 || c = '\r'

/-- Static helper `startOfData` in testdata.cpp: advance past leading
whitespace and return the rest of the line. -/
def startOfData (text : String) : String :=
  String.mk (text.data.dropWhile (fun c => isspaceC c))

/-- Static helper `isTestName` in testdata.cpp: the first character of the
text is a colon. -/
def isTestName (text : String) : Bool :=
  text.data.head? == some ':'

/-- Static helper `extractTestName` in testdata.cpp: duplicate the text after
the colon, then strip trailing whitespace. -/
def extractTestName (text : String) : String :=
  String.mk (((text.data.drop 1).reverse.dropWhile (fun c => isspaceC c)).reverse)

/-- Static helper `isComment` in testdata.cpp: the first two characters of
the text are `//` (a `strncmp` against `"//"` over two characters). -/
def isComment (text : String) : Bool :=
  text.data.take 2 == ['/', '/']

/-! ## Character-level stream and `TestDataRaw::readLine`

A raw input stream is the list of characters that can still be read
successfully, together with a flag recording whether the stream ends
because of a read error (`istream::good()` turning false on `badbit` or
`failbit`) rather than plain end-of-file.  In both cases `good()` is false
from that point on, which is all `readLine` ever inspects. -/

structure RawStream where
  chars : List Char
  err : Bool
deriving DecidableEq, Repr

/-- Split a character list at the first newline: the first component is the
line content (terminator excluded), the second is the rest of the stream. -/
def splitAtNewline : List Char → List Char × List Char
  | [] => ([], [])
  | c :: rest =>
    if c = '\n' then ([], rest)
    else
      let r := splitAtNewline rest
      (c :: r.1, r.2)

/-- `TestSuite::TestDataRaw::readLine` (testdata.cpp): if the stream is not
`good()` or the first `get` fails, return NULL (`none`); otherwise collect
characters up to (and not including) the next newline or the point where
`good()` turns false, and return them as the line. -/
def readLine (s : RawStream) : Option String × RawStream :=
  match s.chars with
  | [] => (none, s)
  | _ :: _ =>
    let r := splitAtNewline s.chars
    (some (String.mk r.1), ⟨r.2, s.err⟩)

/-! ## Line-level stream state and `TestSuite::TestData`

Above `readLine` the code is strictly line-at-a-time, so the remaining
stream is modelled as the list of its lines.  `lineCounter` is
`TestDataRaw::_lineCounter`; `lastLineRead` is `TestData::_lastLineRead`,
the one-line lookahead buffer. -/

structure TD where
  lines : List String
  lineCounter : Nat
  lastLineRead : Option String
deriving DecidableEq, Repr

/-- Line-level `TestDataRaw::readLine`: pop the next line, bump the line
counter; `none` at end of stream. -/
def TD.readLine (td : TD) : Option String × TD :=
  match td.lines with
  | [] => (none, td)
  | l :: rest => (some l, ⟨rest, td.lineCounter + 1, td.lastLineRead⟩)

/-- The loop of `TestSuite::TestData::readTestName`: `cur` is the line in
hand (`line` in the C++), the result is the extracted test name (if any)
together with the remaining lines and the line counter. -/
def readTestNameAux (cur : Option String) (ls : List String) (cnt : Nat) :
    Option String × List String × Nat :=
  match cur with
  | none => (none, ls, cnt)
  | some l =>
    if isTestName (startOfData l) then
      (some (extractTestName (startOfData l)), ls, cnt)
    else
      match ls with
      | [] => (none, [], cnt)
      | l2 :: rest => readTestNameAux (some l2) rest (cnt + 1)

/-- `TestSuite::TestData::readTestName` (testdata.cpp): take the buffered
lookahead line if there is one (clearing the buffer), else read a line;
then scan forward, discarding every line that is not a name marker, until
a name marker is found (returning its trimmed name) or the stream ends. -/
def TD.readTestName (td : TD) : Option String × TD :=
  match td.lastLineRead with
  | some l =>
    let r := readTestNameAux (some l) td.lines td.lineCounter
    (r.1, ⟨r.2.1, r.2.2, none⟩)
  | none =>
    match td.lines with
    | [] => (none, ⟨[], td.lineCounter, none⟩)
    | l :: rest =>
      let r := readTestNameAux (some l) rest (td.lineCounter + 1)
      (r.1, ⟨r.2.1, r.2.2, none⟩)

/-- The loop of `TestSuite::TestData::readTestCase`: returns the test case
(if any), the remaining lines, the line counter, and the lookahead buffer
(`_lastLineRead`, set exactly when a name-marker line was seen). -/
def readTestCaseAux (ls : List String) (cnt : Nat) :
    Option String × List String × Nat × Option String :=
  match ls with
  | [] => (none, [], cnt, none)
  | l :: rest =>
    if isTestName (startOfData l) then (none, rest, cnt + 1, some l)
    else if (startOfData l).data.isEmpty || isComment (startOfData l) then
      readTestCaseAux rest (cnt + 1)
    else (some (startOfData l), rest, cnt + 1, none)

/-- `TestSuite::TestData::readTestCase` (testdata.cpp): read lines, skipping
blank and comment lines; a name-marker line is buffered in `_lastLineRead`
(not consumed) and `none` is returned; a data line is returned with its
leading whitespace stripped.  The C++ code asserts `_lastLineRead == NULL`
on entry; every call site maintains that. -/
def TD.readTestCase (td : TD) : Option String × TD :=
  let r := readTestCaseAux td.lines td.lineCounter
  (r.1, ⟨r.2.1, r.2.2.1, r.2.2.2⟩)

/-- Weight of an `Option`: 1 when occupied, 0 when empty. -/
def optW {α : Type} : Option α → Nat
  | some _ => 1
  | none => 0

/-- Termination measure for the driving loops: lines still unread plus one
for an occupied lookahead buffer. -/
def TD.mu (td : TD) : Nat :=
  td.lines.length + optW td.lastLineRead

/-! ## Measure lemmas for the reading primitives -/

lemma readTestCaseAux_measure (ls : List String) (cnt : Nat) :
    (readTestCaseAux ls cnt).2.1.length + optW (readTestCaseAux ls cnt).2.2.2
      + optW (readTestCaseAux ls cnt).1 ≤ ls.length := by
  induction ls generalizing cnt with
  | nil => simp [readTestCaseAux, optW]
  | cons l rest ih =>
    simp only [readTestCaseAux]
    split_ifs with h1 h2
    · simp [optW]
    · exact le_trans (ih (cnt + 1)) (Nat.le_succ _)
    · simp [optW]

lemma readTestCase_measure (td : TD) :
    (td.readTestCase).2.mu + optW (td.readTestCase).1 ≤ td.mu := by
  have h := readTestCaseAux_measure td.lines td.lineCounter
  simp only [TD.readTestCase, TD.mu]
  have h0 : (0 : Nat) ≤ optW td.lastLineRead := Nat.zero_le _
  omega

lemma readTestNameAux_measure (ls : List String) :
    ∀ (cur : Option String) (cnt : Nat),
      (readTestNameAux cur ls cnt).2.1.length + optW (readTestNameAux cur ls cnt).1
        ≤ ls.length + optW cur := by
  induction ls with
  | nil =>
    intro cur cnt
    match cur with
    | none => simp [readTestNameAux, optW]
    | some l =>
      simp only [readTestNameAux]
      split_ifs with h1
      · simp [optW]
      · simp [optW]
  | cons l2 rest ih =>
    intro cur cnt
    match cur with
    | none => simp [readTestNameAux, optW]
    | some l =>
      simp only [readTestNameAux]
      split_ifs with h1
      · simp [optW]
      · have := ih (some l2) (cnt + 1)
        simp only [optW] at this ⊢
        simp only [List.length_cons]
        omega

lemma readTestName_measure (td : TD) :
    (td.readTestName).2.mu + optW (td.readTestName).1 ≤ td.mu := by
  simp only [TD.readTestName]
  match htd : td.lastLineRead with
  | some l =>
    have h := readTestNameAux_measure td.lines (some l) td.lineCounter
    simp only [optW] at h
    simp only [TD.mu, htd, optW]
    omega
  | none =>
    match hls : td.lines with
    | [] => simp [TD.mu, htd, hls, optW]
    | l :: rest =>
      have h := readTestNameAux_measure rest (some l) (td.lineCounter + 1)
      simp only [optW] at h
      simp only [TD.mu, htd, hls, optW, List.length_cons]
      omega

/-! ## The orchestrator (testsuite.cpp / testsuite.h) -/

/-- `TestSuite::Test::TestResult` (testsuite.h): result codes returned by
user-written test methods. -/
inductive TestResult
  | pass
  | fail
  | abortThisTest
  | abortAllTests
deriving DecidableEq, Repr

/-- `TestSuite::TestCase` (testsuite.h): 1-based ordinal within the block,
source line of the case, and the case text. -/
structure TestCase where
  number : Nat
  lineCounter : Nat
  dataAsText : String
deriving DecidableEq, Repr

/-- A registered test object (`TestSuite::Test`): a name and a user-written
test method.  The method is modelled as a pure function of the test case;
per §4.4/§6 of the documentation a well-behaved method reads only its own
case. -/
structure Test where
  name : String
  method : TestCase → TestResult

/-- One reporter event.  The `TestSuite::log*` hook methods are modelled as
emitting one event each at the exact points they are called from
`runTests`/`runTest`/`getTests`; `logHeader`/`logFooter`/`logTestCasePassed`
have empty default bodies, the last is still recorded as an event so that
invocation order is visible in the transcript. -/
inductive LogEvent
  | testHeader (testName : String)
  | unknownTestName (testName : String)
  | testCasePassed (testName : String) (caseNum lineNum : Nat)
  | testCaseFailed (testName : String) (caseNum lineNum : Nat)
  | testAborted (testName : String)
  | allTestsAborted
  | testFooter (testName : String) (numCases numFailedCases : Nat)
  | noValidTests
deriving DecidableEq, Repr

/-- `TestSuite::getTest` (testsuite.cpp): linear scan for the first node
whose test has the given name. -/
def getTest (testName : String) : List Test → Option Test
  | [] => none
  | t :: rest => if t.name = testName then some t else getTest testName rest

/-- Prepend one event to the transcript component of a `runTest` loop
result. -/
def withEvent (e : LogEvent) (r : Bool × TD × Nat × Nat × List LogEvent) :
    Bool × TD × Nat × Nat × List LogEvent :=
  (r.1, r.2.1, r.2.2.1, r.2.2.2.1, e :: r.2.2.2.2)

/-- The main loop of `TestSuite::runTest` (testsuite.cpp lines 718-751):
`cur` is the test case in hand (`testCaseData`); the result is
`(abortAll, stream state, testCaseNum, numFailedTestCases, events)`.
Note that the C++ loop body calls `readTestCase()` unconditionally at its
end, so even an aborting iteration performs (and discards) one more read. -/
def runTestGo (t : Test) (cur : Option String) (td : TD) (caseNum numFailed : Nat) :
    Bool × TD × Nat × Nat × List LogEvent :=
  match cur with
  | none => (false, td, caseNum, numFailed, [])
  | some data =>
    match t.method ⟨caseNum + 1, td.lineCounter, data⟩ with
    | .pass =>
      withEvent (.testCasePassed t.name (caseNum + 1) td.lineCounter)
        (runTestGo t (td.readTestCase).1 (td.readTestCase).2 (caseNum + 1) numFailed)
    | .fail =>
      withEvent (.testCaseFailed t.name (caseNum + 1) td.lineCounter)
        (runTestGo t (td.readTestCase).1 (td.readTestCase).2 (caseNum + 1) (numFailed + 1))
    | .abortThisTest =>
      (false, (td.readTestCase).2, caseNum + 1, numFailed + 1,
        [.testCaseFailed t.name (caseNum + 1) td.lineCounter, .testAborted t.name])
    | .abortAllTests =>
      (true, (td.readTestCase).2, caseNum + 1, numFailed + 1,
        [.testCaseFailed t.name (caseNum + 1) td.lineCounter, .allTestsAborted])
termination_by td.mu + optW cur
decreasing_by
  all_goals
    have h := readTestCase_measure td
  all_goals
    simp only [optW] at h ⊢
  all_goals
    omega

/-- `TestSuite::runTest` (testsuite.cpp): run all test cases of the current
block against test `t`.  Returns `(continueAll, stream state, testCaseNum,
numFailedTestCases, events)` where `continueAll = !abortAll` is the C++
return value; the per-test footer is always logged, and the caller adds the
two counters to the run-wide statistics. -/
def runTest (t : Test) (td : TD) : Bool × TD × Nat × Nat × List LogEvent :=
  let r := runTestGo t (td.readTestCase).1 (td.readTestCase).2 0 0
  (!r.1, r.2.1, r.2.2.1, r.2.2.2.1,
    LogEvent.testHeader t.name ::
      (r.2.2.2.2 ++ [LogEvent.testFooter t.name r.2.2.1 r.2.2.2.1]))

lemma runTestGo_mu (t : Test) :
    ∀ (n : Nat) (cur : Option String) (td : TD) (c f : Nat), td.mu + optW cur ≤ n →
      (runTestGo t cur td c f).2.1.mu ≤ td.mu + optW cur := by
  intro n
  induction n with
  | zero =>
    intro cur td c f hn
    match cur with
    | none => simp only [runTestGo]; simp [optW]
    | some data => simp [optW] at hn
  | succ n ih =>
    intro cur td c f hn
    match cur with
    | none => simp only [runTestGo]; simp [optW]
    | some data =>
      rw [runTestGo]
      have hm := readTestCase_measure td
      match hr : t.method ⟨c + 1, td.lineCounter, data⟩ with
      | .pass =>
        simp only [withEvent]
        have := ih (td.readTestCase).1 (td.readTestCase).2 (c + 1) f
          (by simp only [optW] at hm hn ⊢; omega)
        simp only [optW] at hm hn this ⊢
        omega
      | .fail =>
        simp only [withEvent]
        have := ih (td.readTestCase).1 (td.readTestCase).2 (c + 1) (f + 1)
          (by simp only [optW] at hm hn ⊢; omega)
        simp only [optW] at hm hn this ⊢
        omega
      | .abortThisTest =>
        simp only [optW] at hm ⊢
        omega
      | .abortAllTests =>
        simp only [optW] at hm ⊢
        omega

lemma runTest_mu (t : Test) (td : TD) : (runTest t td).2.1.mu ≤ td.mu := by
  have hm := readTestCase_measure td
  have h := runTestGo_mu t ((td.readTestCase).2.mu + optW (td.readTestCase).1)
    (td.readTestCase).1 (td.readTestCase).2 0 0 le_rfl
  simp only [runTest]
  simp only [optW] at hm h ⊢
  omega

/-- The main loop of `TestSuite::runTests` (testsuite.cpp lines 660-670):
`cur` is the test name in hand (`testName`); looks the name up in the
selected set `tests`, runs the matching test if there is one, and reads the
next name unless all testing was aborted.  Returns the final stream state,
the run-wide statistics (`_totalTestCases`, `_totalFailedTestCases`) and
the transcript. -/
def runTestsLoop (tests : List Test) (cur : Option String) (td : TD)
    (totalCases totalFailed : Nat) : TD × Nat × Nat × List LogEvent :=
  match cur with
  | none => (td, totalCases, totalFailed, [])
  | some n =>
    match getTest n tests with
    | none =>
      runTestsLoop tests (td.readTestName).1 (td.readTestName).2 totalCases totalFailed
    | some t =>
      let r := runTest t td
      if r.1 then
        let q := runTestsLoop tests (r.2.1.readTestName).1 (r.2.1.readTestName).2
          (totalCases + r.2.2.1) (totalFailed + r.2.2.2.1)
        (q.1, q.2.1, q.2.2.1, r.2.2.2.2 ++ q.2.2.2)
      else (r.2.1, totalCases + r.2.2.1, totalFailed + r.2.2.2.1, r.2.2.2.2)
termination_by td.mu + optW cur
decreasing_by
  · have h := readTestName_measure td
    simp only [optW] at h ⊢
    omega
  · have h1 := runTest_mu t td
    have h2 := readTestName_measure (runTest t td).2.1
    simp only [optW] at h1 h2 ⊢
    omega

/-- `TestSuite::runTests` (testsuite.cpp): a NULL `tests` list logs the
"no valid test names" message; otherwise the driving loop runs, seeded
with the first `readTestName()`. -/
def runTests (tests : List Test) (td : TD) (totalCases totalFailed : Nat) :
    TD × Nat × Nat × List LogEvent :=
  match tests with
  | [] => (td, totalCases, totalFailed, [LogEvent.noValidTests])
  | _ :: _ => runTestsLoop tests (td.readTestName).1 (td.readTestName).2 totalCases totalFailed

/-- `TestSuite::getTests` (testsuite.cpp): iterate over the requested names;
a name with no registered test is logged via `logUnknownTestName`, a
resolved test is prepended to the result list (so the returned list is in
reverse request order). -/
def getTests (registry : List Test) (names : List String) : List Test × List LogEvent :=
  names.foldl
    (fun acc n =>
      match getTest n registry with
      | none => (acc.1, acc.2 ++ [LogEvent.unknownTestName n])
      | some t => (t :: acc.1, acc.2))
    ([], [])

/-- The observable outcome of one public run operation: final stream state,
run statistics and transcript. -/
structure RunOutcome where
  finalData : TD
  totalTestCases : Nat
  totalFailedTestCases : Nat
  transcript : List LogEvent
deriving DecidableEq, Repr

/-- `TestSuite::one` (testsuite.cpp): `prepareForTesting` resets the stream
and zeroes both statistics, then the single name is resolved via
`getTests` and `runTests` runs.  `logHeader`/`logFooter` have empty default
bodies. -/
def one (registry : List Test) (stream : List String) (testName : String) : RunOutcome :=
  let g := getTests registry [testName]
  let r := runTests g.1 ⟨stream, 0, none⟩ 0 0
  ⟨r.1, r.2.1, r.2.2.1, g.2 ++ r.2.2.2⟩

/-- `TestSuite::group` (testsuite.cpp, both overloads): resolve the ordered
name list via `getTests`, then run. -/
def group (registry : List Test) (stream : List String) (names : List String) : RunOutcome :=
  let g := getTests registry names
  let r := runTests g.1 ⟨stream, 0, none⟩ 0 0
  ⟨r.1, r.2.1, r.2.2.1, g.2 ++ r.2.2.2⟩

/-- `TestSuite::all` (testsuite.cpp): run with the whole registry list
`_tests` as the selected set. -/
def all (registry : List Test) (stream : List String) : RunOutcome :=
  let r := runTests registry ⟨stream, 0, none⟩ 0 0
  ⟨r.1, r.2.1, r.2.2.1, r.2.2.2⟩

/-- `TestSuite::registerTest` (testsuite.cpp): prepend the new test object
to the shared list `_tests`. -/
def registerTest (t : Test) (tests : List Test) : List Test :=
  t :: tests

/-- The registry obtained by self-registration of `defs` in order (each
`TestSuite::Test` constructor calls `registerTest` on construction). -/
def registerAll (defs : List Test) : List Test :=
  defs.foldl (fun acc t => registerTest t acc) []

/-! ## Unfolding lemmas for the driving loops -/

lemma runTestGo_none (t : Test) (td : TD) (c f : Nat) :
    runTestGo t none td c f = (false, td, c, f, []) := by
  simp only [runTestGo]

lemma runTestGo_pass (t : Test) (data : String) (td : TD) (c f : Nat)
    (h : t.method ⟨c + 1, td.lineCounter, data⟩ = .pass) :
    runTestGo t (some data) td c f =
      withEvent (.testCasePassed t.name (c + 1) td.lineCounter)
        (runTestGo t (td.readTestCase).1 (td.readTestCase).2 (c + 1) f) := by
  conv =>
    lhs
    rw [runTestGo]
  rw [h]

lemma runTestGo_fail (t : Test) (data : String) (td : TD) (c f : Nat)
    (h : t.method ⟨c + 1, td.lineCounter, data⟩ = .fail) :
    runTestGo t (some data) td c f =
      withEvent (.testCaseFailed t.name (c + 1) td.lineCounter)
        (runTestGo t (td.readTestCase).1 (td.readTestCase).2 (c + 1) (f + 1)) := by
  conv =>
    lhs
    rw [runTestGo]
  rw [h]

lemma runTestGo_abortThis (t : Test) (data : String) (td : TD) (c f : Nat)
    (h : t.method ⟨c + 1, td.lineCounter, data⟩ = .abortThisTest) :
    runTestGo t (some data) td c f =
      (false, (td.readTestCase).2, c + 1, f + 1,
        [.testCaseFailed t.name (c + 1) td.lineCounter, .testAborted t.name]) := by
  conv =>
    lhs
    rw [runTestGo]
  rw [h]

lemma runTestGo_abortAll (t : Test) (data : String) (td : TD) (c f : Nat)
    (h : t.method ⟨c + 1, td.lineCounter, data⟩ = .abortAllTests) :
    runTestGo t (some data) td c f =
      (true, (td.readTestCase).2, c + 1, f + 1,
        [.testCaseFailed t.name (c + 1) td.lineCounter, .allTestsAborted]) := by
  conv =>
    lhs
    rw [runTestGo]
  rw [h]

lemma runTestsLoop_none (tests : List Test) (td : TD) (tc tf : Nat) :
    runTestsLoop tests none td tc tf = (td, tc, tf, []) := by
  simp only [runTestsLoop]

lemma runTestsLoop_skip (tests : List Test) (n : String) (td : TD) (tc tf : Nat)
    (h : getTest n tests = none) :
    runTestsLoop tests (some n) td tc tf =
      runTestsLoop tests (td.readTestName).1 (td.readTestName).2 tc tf := by
  conv =>
    lhs
    rw [runTestsLoop]
  rw [h]

lemma runTestsLoop_run_continue (tests : List Test) (n : String) (t : Test) (td : TD)
    (tc tf : Nat) (h : getTest n tests = some t) (hc : (runTest t td).1 = true) :
    runTestsLoop tests (some n) td tc tf =
      ((runTestsLoop tests ((runTest t td).2.1.readTestName).1
          ((runTest t td).2.1.readTestName).2
          (tc + (runTest t td).2.2.1) (tf + (runTest t td).2.2.2.1)).1,
       (runTestsLoop tests ((runTest t td).2.1.readTestName).1
          ((runTest t td).2.1.readTestName).2
          (tc + (runTest t td).2.2.1) (tf + (runTest t td).2.2.2.1)).2.1,
       (runTestsLoop tests ((runTest t td).2.1.readTestName).1
          ((runTest t td).2.1.readTestName).2
          (tc + (runTest t td).2.2.1) (tf + (runTest t td).2.2.2.1)).2.2.1,
       (runTest t td).2.2.2.2 ++
         (runTestsLoop tests ((runTest t td).2.1.readTestName).1
            ((runTest t td).2.1.readTestName).2
            (tc + (runTest t td).2.2.1) (tf + (runTest t td).2.2.2.1)).2.2.2) := by
  conv =>
    lhs
    rw [runTestsLoop]
  rw [h]
  simp only [hc, if_true]

lemma runTestsLoop_run_abort (tests : List Test) (n : String) (t : Test) (td : TD)
    (tc tf : Nat) (h : getTest n tests = some t) (hc : (runTest t td).1 = false) :
    runTestsLoop tests (some n) td tc tf =
      ((runTest t td).2.1, tc + (runTest t td).2.2.1, tf + (runTest t td).2.2.2.1,
        (runTest t td).2.2.2.2) := by
  conv =>
    lhs
    rw [runTestsLoop]
  rw [h]
  simp only [hc, if_false, Bool.false_eq_true]

/-! ## Counting lemmas: every case adds one to the case count and at most
one to the failed count -/

lemma runTestGo_counts (t : Test) :
    ∀ (n : Nat) (cur : Option String) (td : TD) (c f : Nat), td.mu + optW cur ≤ n →
      c ≤ (runTestGo t cur td c f).2.2.1 ∧
      f ≤ (runTestGo t cur td c f).2.2.2.1 ∧
      (runTestGo t cur td c f).2.2.2.1 + c ≤ (runTestGo t cur td c f).2.2.1 + f := by
  intro n
  induction n with
  | zero =>
    intro cur td c f hn
    match cur with
    | none => simp [runTestGo_none]; omega
    | some data => exfalso; simp [optW] at hn
  | succ n ih =>
    intro cur td c f hn
    match cur with
    | none => simp [runTestGo_none]; omega
    | some data =>
      have hm := readTestCase_measure td
      have hrec : (td.readTestCase).2.mu + optW (td.readTestCase).1 ≤ n := by
        simp only [optW] at hm hn ⊢
        omega
      match hr : t.method ⟨c + 1, td.lineCounter, data⟩ with
      | .pass =>
        rw [runTestGo_pass t data td c f hr]
        have := ih (td.readTestCase).1 (td.readTestCase).2 (c + 1) f hrec
        simp only [withEvent]
        omega
      | .fail =>
        rw [runTestGo_fail t data td c f hr]
        have := ih (td.readTestCase).1 (td.readTestCase).2 (c + 1) (f + 1) hrec
        simp only [withEvent]
        omega
      | .abortThisTest =>
        rw [runTestGo_abortThis t data td c f hr]
        simp only
        omega
      | .abortAllTests =>
        rw [runTestGo_abortAll t data td c f hr]
        simp only
        omega

lemma runTest_counts (t : Test) (td : TD) :
    (runTest t td).2.2.2.1 ≤ (runTest t td).2.2.1 := by
  have h := runTestGo_counts t ((td.readTestCase).2.mu + optW (td.readTestCase).1)
    (td.readTestCase).1 (td.readTestCase).2 0 0 le_rfl
  simp only [runTest]
  omega

lemma runTestsLoop_stats (tests : List Test) :
    ∀ (n : Nat) (cur : Option String) (td : TD) (tc tf : Nat), td.mu + optW cur ≤ n →
      tf ≤ tc →
      (runTestsLoop tests cur td tc tf).2.2.1 ≤ (runTestsLoop tests cur td tc tf).2.1 := by
  intro n
  induction n with
  | zero =>
    intro cur td tc tf hn htf
    match cur with
    | none => simpa [runTestsLoop_none] using htf
    | some nm => exfalso; simp [optW] at hn
  | succ n ih =>
    intro cur td tc tf hn htf
    match cur with
    | none => simpa [runTestsLoop_none] using htf
    | some nm =>
      match hg : getTest nm tests with
      | none =>
        rw [runTestsLoop_skip tests nm td tc tf hg]
        have hm := readTestName_measure td
        exact ih _ _ _ _ (by simp only [optW] at hm hn ⊢; omega) htf
      | some t =>
        have hrc := runTest_counts t td
        match hc : (runTest t td).1 with
        | true =>
          rw [runTestsLoop_run_continue tests nm t td tc tf hg hc]
          have h1 := runTest_mu t td
          have h2 := readTestName_measure (runTest t td).2.1
          exact ih _ _ _ _ (by simp only [optW] at h1 h2 hn ⊢; omega) (by omega)
        | false =>
          rw [runTestsLoop_run_abort tests nm t td tc tf hg hc]
          simp only
          omega

lemma runTests_stats (tests : List Test) (td : TD) (tc tf : Nat) (h : tf ≤ tc) :
    (runTests tests td tc tf).2.2.1 ≤ (runTests tests td tc tf).2.1 := by
  match tests with
  | [] => simpa [runTests] using h
  | t :: rest =>
    simp only [runTests]
    have hm := readTestName_measure td
    exact runTestsLoop_stats (t :: rest) td.mu _ _ _ _
      (by simp only [optW] at hm ⊢; omega) h

/-! ## Blank and comment lines, and how the block reader skips them -/

/-- A line that `readTestCase` skips over: blank (nothing after left-trim)
or a comment. -/
def trivialLine (s : String) : Bool :=
  (startOfData s).data.isEmpty || isComment (startOfData s)

lemma isTestName_eq_false_of_trivial (s : String) (h : trivialLine s = true) :
    isTestName (startOfData s) = false := by
  simp only [trivialLine, Bool.or_eq_true] at h
  simp only [isTestName]
  rcases h with h | h
  · rcases hd : (startOfData s).data with _ | ⟨c, rest⟩
    · rfl
    · rw [hd] at h
      simp at h
  · simp only [isComment] at h
    rcases hd : (startOfData s).data with _ | ⟨c, rest⟩
    · rfl
    · rw [hd] at h
      have hc : c = '/' := by
        rcases rest with _ | ⟨c2, r2⟩ <;> simp_all
      subst hc
      rfl

lemma readTestCaseAux_skip (pre : List String) :
    ∀ (ls : List String) (cnt : Nat), (∀ x ∈ pre, trivialLine x = true) →
      readTestCaseAux (pre ++ ls) cnt = readTestCaseAux ls (cnt + pre.length) := by
  induction pre with
  | nil => intro ls cnt _; simp
  | cons p rest ih =>
    intro ls cnt h
    have hp : trivialLine p = true := h p (by simp)
    have hr : ∀ x ∈ rest, trivialLine x = true := fun x hx => h x (by simp [hx])
    have h1 : isTestName (startOfData p) = false := isTestName_eq_false_of_trivial p hp
    have h2 : ((startOfData p).data.isEmpty || isComment (startOfData p)) = true := hp
    have hstep : readTestCaseAux ((p :: rest) ++ ls) cnt = readTestCaseAux (rest ++ ls) (cnt + 1) := by
      simp [readTestCaseAux, h1, h2]
    rw [hstep, ih ls (cnt + 1) hr]
    congr 1
    simp only [List.length_cons]
    omega

/-- A line that is not a name marker is discarded by `readTestName`, which
then continues scanning with the rest of the stream. -/
lemma readTestName_cons_skip (l : String) (rest : List String) (cnt : Nat)
    (h : isTestName (startOfData l) = false) :
    TD.readTestName ⟨l :: rest, cnt, none⟩ = TD.readTestName ⟨rest, cnt + 1, none⟩ := by
  rcases rest with _ | ⟨l2, r2⟩ <;>
    simp [TD.readTestName, readTestNameAux, h]

/-! ## The drain process described by the specification for unmatched
blocks -/

/-- Modelled from the spec's words for comparison with the code: "the
unmatched block's data is drained by repeatedly calling `readTestCase()`
until it returns none".  The code itself has no such call sequence (it goes
straight back to `readTestName()`), so this definition exists to prove the
two mechanisms reach the same state. -/
def drainBySpec (td : TD) : TD :=
  match h : (td.readTestCase).1 with
  | some _ => drainBySpec (td.readTestCase).2
  | none => (td.readTestCase).2
termination_by td.mu
decreasing_by
  have hm := readTestCase_measure td
  rw [h] at hm
  simp only [optW] at hm
  omega

lemma drainBySpec_some (td : TD) (d : String) (h : (td.readTestCase).1 = some d) :
    drainBySpec td = drainBySpec (td.readTestCase).2 := by
  conv_lhs => unfold drainBySpec
  split
  · rfl
  · simp_all

lemma drainBySpec_none (td : TD) (h : (td.readTestCase).1 = none) :
    drainBySpec td = (td.readTestCase).2 := by
  conv_lhs => unfold drainBySpec
  split
  · simp_all
  · rfl

lemma drainBySpec_congr (td td2 : TD) (h : td.readTestCase = td2.readTestCase) :
    drainBySpec td = drainBySpec td2 := by
  match hc : (td.readTestCase).1 with
  | some d =>
    rw [drainBySpec_some td d hc, drainBySpec_some td2 d (by rw [← h, hc]), h]
  | none =>
    rw [drainBySpec_none td hc, drainBySpec_none td2 (by rw [← h, hc]), h]

/-- Seeking the next test name from a buffer-free state is extensionally
the same as first draining the current block with repeated `readTestCase()`
calls and then seeking. -/
lemma readTestName_eq_drain : ∀ (ls : List String) (cnt : Nat),
    TD.readTestName ⟨ls, cnt, none⟩ = TD.readTestName (drainBySpec ⟨ls, cnt, none⟩) := by
  intro ls
  induction ls with
  | nil =>
    intro cnt
    have h : (TD.readTestCase ⟨[], cnt, none⟩).1 = none := by
      simp [TD.readTestCase, readTestCaseAux]
    rw [drainBySpec_none _ h]
    simp [TD.readTestCase, readTestCaseAux]
  | cons l rest ih =>
    intro cnt
    by_cases hl : isTestName (startOfData l) = true
    · have h : TD.readTestCase ⟨l :: rest, cnt, none⟩ = (none, ⟨rest, cnt + 1, some l⟩) := by
        simp [TD.readTestCase, readTestCaseAux, hl]
      rw [drainBySpec_none _ (by rw [h])]
      rw [show (TD.readTestCase ⟨l :: rest, cnt, none⟩).2 = ⟨rest, cnt + 1, some l⟩ by rw [h]]
      simp [TD.readTestName, readTestNameAux, hl]
    · have hl' : isTestName (startOfData l) = false := by
        simpa using hl
      rw [readTestName_cons_skip l rest cnt hl', ih (cnt + 1)]
      by_cases hb : ((startOfData l).data.isEmpty || isComment (startOfData l)) = true
      · have heq : TD.readTestCase ⟨l :: rest, cnt, none⟩ = TD.readTestCase ⟨rest, cnt + 1, none⟩ := by
          simp [TD.readTestCase, readTestCaseAux, hl', hb]
        rw [drainBySpec_congr ⟨l :: rest, cnt, none⟩ ⟨rest, cnt + 1, none⟩ heq]
      · have hb' : ((startOfData l).data.isEmpty || isComment (startOfData l)) = false := by
          simpa using hb
        have hsome : TD.readTestCase ⟨l :: rest, cnt, none⟩ =
            (some (startOfData l), ⟨rest, cnt + 1, none⟩) := by
          simp [TD.readTestCase, readTestCaseAux, hl', hb']
        have hdr : drainBySpec ⟨l :: rest, cnt, none⟩ = drainBySpec ⟨rest, cnt + 1, none⟩ := by
          rw [drainBySpec_some ⟨l :: rest, cnt, none⟩ (startOfData l) (by rw [hsome])]
          rw [show (TD.readTestCase ⟨l :: rest, cnt, none⟩).2 = ⟨rest, cnt + 1, none⟩ by rw [hsome]]
        rw [hdr]

/-! ## Characterisation of `splitAtNewline`, `getTests` and `registerAll` -/

lemma splitAtNewline_spec (cs : List Char) :
    splitAtNewline cs =
      (cs.takeWhile (fun c => c != '\n'), (cs.dropWhile (fun c => c != '\n')).drop 1) := by
  induction cs with
  | nil => simp [splitAtNewline]
  | cons c rest ih =>
    by_cases hc : c = '\n'
    · subst hc
      simp [splitAtNewline, List.takeWhile_cons, List.dropWhile_cons]
    · simp [splitAtNewline, hc, List.takeWhile_cons, List.dropWhile_cons, ih]

lemma getTests_foldl (registry : List Test) :
    ∀ (names : List String) (ts : List Test) (ev : List LogEvent),
      names.foldl
        (fun acc n =>
          match getTest n registry with
          | none => (acc.1, acc.2 ++ [LogEvent.unknownTestName n])
          | some t => (t :: acc.1, acc.2)) (ts, ev) =
      ((names.filterMap (fun n => getTest n registry)).reverse ++ ts,
        ev ++ (names.filter (fun n => (getTest n registry).isNone)).map LogEvent.unknownTestName) := by
  intro names
  induction names with
  | nil => intro ts ev; simp
  | cons n rest ih =>
    intro ts ev
    simp only [List.foldl_cons]
    match hg : getTest n registry with
    | none =>
      rw [ih]
      simp [List.filterMap_cons, List.filter_cons, hg]
    | some t =>
      rw [ih]
      simp [List.filterMap_cons, List.filter_cons, hg]

/-- Closed form of `getTests`: the resolved tests in reverse request order,
and one unknown-name warning, in request order, for every name that has no
registered test. -/
lemma getTests_spec (registry : List Test) (names : List String) :
    getTests registry names =
      ((names.filterMap (fun n => getTest n registry)).reverse,
        (names.filter (fun n => (getTest n registry).isNone)).map LogEvent.unknownTestName) := by
  have h := getTests_foldl registry names [] []
  simpa [getTests] using h

lemma registerAll_go (defs : List Test) :
    ∀ acc : List Test, defs.foldl (fun a t => registerTest t a) acc = defs.reverse ++ acc := by
  induction defs with
  | nil => intro acc; simp
  | cons d rest ih =>
    intro acc
    simp [registerTest, ih, List.reverse_cons, List.append_assoc]

/-- Self-registration prepends, so the registry ends up in reverse
registration order (most recently registered first). -/
lemma registerAll_reverse (defs : List Test) : registerAll defs = defs.reverse := by
  simpa [registerAll] using registerAll_go defs []

/-! ## Concrete test objects used by witnesses and counterexamples -/

def tAlpha : Test := ⟨"tA", fun _ => .pass⟩

def tBeta : Test := ⟨"tB", fun _ => .pass⟩

def tFailer : Test := ⟨"tF", fun _ => .fail⟩

def tAbortAll : Test := ⟨"tX", fun _ => .abortAllTests⟩

def tAbortThis : Test := ⟨"tC", fun _ => .abortThisTest⟩

/-! ## The claims -/

/-- C1: for every run (`one`, `group`, `all`) the run statistics satisfy
`totalFailedTestCases ≤ totalTestCases`; at every state of the per-case
loop the case count grows by one per case and the failed count by at most
one (`c ≤ c'`, `f ≤ f'`, `f' + c ≤ c' + f`), so the invariant
`f ≤ c → f' ≤ c'` is preserved by every step of the driving loop and holds
after every individual test case and after every run. -/
theorem c1_statistics_invariant :
    (∀ (t : Test) (cur : Option String) (td : TD) (c f : Nat),
        c ≤ (runTestGo t cur td c f).2.2.1 ∧
        f ≤ (runTestGo t cur td c f).2.2.2.1 ∧
        (runTestGo t cur td c f).2.2.2.1 + c ≤ (runTestGo t cur td c f).2.2.1 + f) ∧
    (∀ (t : Test) (cur : Option String) (td : TD) (c f : Nat), f ≤ c →
        (runTestGo t cur td c f).2.2.2.1 ≤ (runTestGo t cur td c f).2.2.1) ∧
    (∀ (t : Test) (td : TD), (runTest t td).2.2.2.1 ≤ (runTest t td).2.2.1) ∧
    (∀ (registry : List Test) (stream : List String) (testName : String),
        (one registry stream testName).totalFailedTestCases ≤
          (one registry stream testName).totalTestCases) ∧
    (∀ (registry : List Test) (stream : List String) (names : List String),
        (group registry stream names).totalFailedTestCases ≤
          (group registry stream names).totalTestCases) ∧
    (∀ (registry : List Test) (stream : List String),
        (all registry stream).totalFailedTestCases ≤ (all registry stream).totalTestCases) := by
  refine ⟨?_, ?_, ?_, ?_, ?_, ?_⟩
  · intro t cur td c f
    exact runTestGo_counts t (td.mu + optW cur) cur td c f le_rfl
  · intro t cur td c f h
    have := runTestGo_counts t (td.mu + optW cur) cur td c f le_rfl
    omega
  · intro t td
    exact runTest_counts t td
  · intro registry stream testName
    simp only [one]
    exact runTests_stats _ _ 0 0 le_rfl
  · intro registry stream names
    simp only [group]
    exact runTests_stats _ _ 0 0 le_rfl
  · intro registry stream
    simp only [all]
    exact runTests_stats _ _ 0 0 le_rfl

theorem c1_statistics_invariant_witness :
    1 ≤ 2 ∧
    (runTestGo tAbortAll (some "1 2") ⟨["x"], 3, none⟩ 2 1).2.2.2.1 ≤
      (runTestGo tAbortAll (some "1 2") ⟨["x"], 3, none⟩ 2 1).2.2.1 :=
  ⟨by decide,
    c1_statistics_invariant.2.1 tAbortAll (some "1 2") ⟨["x"], 3, none⟩ 2 1 (by decide)⟩

/-- C2: a test method returning `abortAllTests` halts the whole run.  The
aborting iteration emits only its failure event and the abort-all notice
and returns `abortAll = true` without invoking any later case of the block
(its only further stream activity is the loop's one unconditional
`readTestCase()` whose result is discarded); in the driving loop a
`runTest` that reports abort (`continueAll = false`) makes `runTests`
return at once: no further test name is read and no later block — selected
or not — executes in that run. -/
theorem c2_abort_all_stops_run :
    (∀ (t : Test) (data : String) (td : TD) (c f : Nat),
        t.method ⟨c + 1, td.lineCounter, data⟩ = .abortAllTests →
        runTestGo t (some data) td c f =
          (true, (td.readTestCase).2, c + 1, f + 1,
            [.testCaseFailed t.name (c + 1) td.lineCounter, .allTestsAborted])) ∧
    (∀ (tests : List Test) (n : String) (t : Test) (td : TD) (tc tf : Nat),
        getTest n tests = some t → (runTest t td).1 = false →
        runTestsLoop tests (some n) td tc tf =
          ((runTest t td).2.1, tc + (runTest t td).2.2.1, tf + (runTest t td).2.2.2.1,
            (runTest t td).2.2.2.2)) :=
  ⟨runTestGo_abortAll, runTestsLoop_run_abort⟩

theorem c2_abort_all_stops_run_witness :
    runTestGo tAbortAll (some "1") ⟨["2", ":tB"], 1, none⟩ 0 0 =
      (true, ⟨[":tB"], 2, none⟩, 1, 1,
        [.testCaseFailed "tX" 1 1, .allTestsAborted]) ∧
    runTestsLoop [tAbortAll] (some "tX") ⟨["1", "2", ":tB", "y"], 0, none⟩ 0 0 =
      (⟨[":tB", "y"], 2, none⟩, 1, 1,
        [.testHeader "tX", .testCaseFailed "tX" 1 1, .allTestsAborted,
          .testFooter "tX" 1 1]) := by
  constructor
  · exact (c2_abort_all_stops_run.1 tAbortAll "1" ⟨["2", ":tB"], 1, none⟩ 0 0 rfl).trans
      (by decide)
  · refine (c2_abort_all_stops_run.2 [tAbortAll] "tX" tAbortAll ⟨["1", "2", ":tB", "y"], 0, none⟩
      0 0 rfl ?_).trans ?_
    · simp +decide [runTest, runTestGo, TD.readTestCase, readTestCaseAux, tAbortAll, withEvent]
    · simp +decide [runTest, runTestGo, TD.readTestCase, readTestCaseAux, tAbortAll, withEvent]

/-- C3: a test method returning `abortThisTest` stops only the current
block.  The aborting iteration returns `abortAll = false` with the failure
event and this-test abort notice; `runTest` then reports
`continueAll = !abortAll`; a continuing `runTest` makes the driving loop go
back to `readTestName()` and carry on, and if the next name it finds
resolves in the selected set, that block's `runTest` output appears in the
transcript — a later block, same or different name, still executes. -/
theorem c3_abort_this_only_block :
    (∀ (t : Test) (data : String) (td : TD) (c f : Nat),
        t.method ⟨c + 1, td.lineCounter, data⟩ = .abortThisTest →
        runTestGo t (some data) td c f =
          (false, (td.readTestCase).2, c + 1, f + 1,
            [.testCaseFailed t.name (c + 1) td.lineCounter, .testAborted t.name])) ∧
    (∀ (t : Test) (td : TD),
        (runTest t td).1 = !(runTestGo t (td.readTestCase).1 (td.readTestCase).2 0 0).1) ∧
    (∀ (tests : List Test) (n : String) (t : Test) (td : TD) (tc tf : Nat),
        getTest n tests = some t → (runTest t td).1 = true →
        runTestsLoop tests (some n) td tc tf =
          ((runTestsLoop tests ((runTest t td).2.1.readTestName).1
              ((runTest t td).2.1.readTestName).2
              (tc + (runTest t td).2.2.1) (tf + (runTest t td).2.2.2.1)).1,
            (runTestsLoop tests ((runTest t td).2.1.readTestName).1
              ((runTest t td).2.1.readTestName).2
              (tc + (runTest t td).2.2.1) (tf + (runTest t td).2.2.2.1)).2.1,
            (runTestsLoop tests ((runTest t td).2.1.readTestName).1
              ((runTest t td).2.1.readTestName).2
              (tc + (runTest t td).2.2.1) (tf + (runTest t td).2.2.2.1)).2.2.1,
            (runTest t td).2.2.2.2 ++
              (runTestsLoop tests ((runTest t td).2.1.readTestName).1
                ((runTest t td).2.1.readTestName).2
                (tc + (runTest t td).2.2.1) (tf + (runTest t td).2.2.2.1)).2.2.2)) ∧
    (∀ (tests : List Test) (n : String) (t : Test) (td : TD) (tc tf : Nat)
        (n2 : String) (t2 : Test),
        getTest n tests = some t → (runTest t td).1 = true →
        ((runTest t td).2.1.readTestName).1 = some n2 →
        getTest n2 tests = some t2 →
        ∃ evRest, (runTestsLoop tests (some n) td tc tf).2.2.2 =
          (runTest t td).2.2.2.2 ++
            ((runTest t2 ((runTest t td).2.1.readTestName).2).2.2.2.2 ++ evRest)) := by
  refine ⟨runTestGo_abortThis, ?_, runTestsLoop_run_continue, ?_⟩
  · intro t td
    rfl
  · intro tests n t td tc tf n2 t2 hg hc hn2 hg2
    rw [runTestsLoop_run_continue tests n t td tc tf hg hc]
    simp only
    rw [hn2]
    match h3 : (runTest t2 ((runTest t td).2.1.readTestName).2).1 with
    | true =>
      rw [runTestsLoop_run_continue tests n2 t2 _ _ _ hg2 h3]
      exact ⟨_, rfl⟩
    | false =>
      rw [runTestsLoop_run_abort tests n2 t2 _ _ _ hg2 h3]
      exact ⟨[], by simp⟩

theorem c3_abort_this_only_block_witness :
    (∃ evRest,
      (runTestsLoop [tAbortThis] (some "tC") ⟨["1", "2", ":tC", "3"], 0, none⟩ 0 0).2.2.2 =
        (runTest tAbortThis ⟨["1", "2", ":tC", "3"], 0, none⟩).2.2.2.2 ++
          ((runTest tAbortThis
              ((runTest tAbortThis ⟨["1", "2", ":tC", "3"], 0, none⟩).2.1.readTestName).2).2.2.2.2
            ++ evRest)) ∧
    (runTestsLoop [tAbortThis] (some "tC") ⟨["1", "2", ":tC", "3"], 0, none⟩ 0 0).2.2.2 =
      [.testHeader "tC", .testCaseFailed "tC" 1 1, .testAborted "tC", .testFooter "tC" 1 1,
        .testHeader "tC", .testCaseFailed "tC" 1 4, .testAborted "tC", .testFooter "tC" 1 1] := by
  constructor
  · exact c3_abort_this_only_block.2.2.2 [tAbortThis] "tC" tAbortThis
      ⟨["1", "2", ":tC", "3"], 0, none⟩ 0 0 "tC" tAbortThis rfl
      (by simp +decide [runTest, runTestGo, TD.readTestCase, readTestCaseAux, tAbortThis,
        withEvent])
      (by simp +decide [runTest, runTestGo, TD.readTestCase, readTestCaseAux, tAbortThis,
        withEvent, TD.readTestName, readTestNameAux])
      rfl
  · simp +decide [runTestsLoop, runTest, runTestGo, TD.readTestCase, readTestCaseAux,
      tAbortThis, withEvent, TD.readTestName, readTestNameAux, getTest]

/-- C10: every test-method result other than `pass` — `fail`,
`abortThisTest` and `abortAllTests` alike — increments the block's
failed-case count by exactly one for that case (while `pass` leaves it
unchanged), the per-test footer reports exactly the block's final case and
failed counts (so an aborting case is counted there), and the driving loop
folds those same counts into the run-wide totals. -/
theorem c10_every_nonpass_counts_as_failed :
    (∀ (t : Test) (data : String) (td : TD) (c f : Nat),
        t.method ⟨c + 1, td.lineCounter, data⟩ = .fail →
        runTestGo t (some data) td c f =
          withEvent (.testCaseFailed t.name (c + 1) td.lineCounter)
            (runTestGo t (td.readTestCase).1 (td.readTestCase).2 (c + 1) (f + 1))) ∧
    (∀ (t : Test) (data : String) (td : TD) (c f : Nat),
        t.method ⟨c + 1, td.lineCounter, data⟩ = .abortThisTest →
        (runTestGo t (some data) td c f).2.2.2.1 = f + 1) ∧
    (∀ (t : Test) (data : String) (td : TD) (c f : Nat),
        t.method ⟨c + 1, td.lineCounter, data⟩ = .abortAllTests →
        (runTestGo t (some data) td c f).2.2.2.1 = f + 1) ∧
    (∀ (t : Test) (data : String) (td : TD) (c f : Nat),
        t.method ⟨c + 1, td.lineCounter, data⟩ = .pass →
        runTestGo t (some data) td c f =
          withEvent (.testCasePassed t.name (c + 1) td.lineCounter)
            (runTestGo t (td.readTestCase).1 (td.readTestCase).2 (c + 1) f)) ∧
    (∀ (t : Test) (td : TD),
        (runTest t td).2.2.2.2 =
          .testHeader t.name ::
            ((runTestGo t (td.readTestCase).1 (td.readTestCase).2 0 0).2.2.2.2 ++
              [.testFooter t.name (runTest t td).2.2.1 (runTest t td).2.2.2.1])) ∧
    (∀ (tests : List Test) (n : String) (t : Test) (td : TD) (tc tf : Nat),
        getTest n tests = some t → (runTest t td).1 = false →
        (runTestsLoop tests (some n) td tc tf).2.1 = tc + (runTest t td).2.2.1 ∧
        (runTestsLoop tests (some n) td tc tf).2.2.1 = tf + (runTest t td).2.2.2.1) := by
  refine ⟨runTestGo_fail, ?_, ?_, runTestGo_pass, ?_, ?_⟩
  · intro t data td c f h
    rw [runTestGo_abortThis t data td c f h]
  · intro t data td c f h
    rw [runTestGo_abortAll t data td c f h]
  · intro t td
    rfl
  · intro tests n t td tc tf hg hc
    rw [runTestsLoop_run_abort tests n t td tc tf hg hc]
    exact ⟨rfl, rfl⟩

theorem c10_every_nonpass_counts_as_failed_witness :
    (runTestGo tFailer (some "1") ⟨[], 7, none⟩ 0 0 =
      withEvent (.testCaseFailed "tF" 1 7)
        (runTestGo tFailer ((⟨[], 7, none⟩ : TD).readTestCase).1
          ((⟨[], 7, none⟩ : TD).readTestCase).2 1 1)) ∧
    (runTestGo tAbortThis (some "1") ⟨[], 7, none⟩ 0 2).2.2.2.1 = 3 ∧
    (runTestGo tAbortAll (some "1") ⟨[], 7, none⟩ 0 2).2.2.2.1 = 3 := by
  refine ⟨?_, ?_, ?_⟩
  · exact c10_every_nonpass_counts_as_failed.1 tFailer "1" ⟨[], 7, none⟩ 0 0 rfl
  · exact c10_every_nonpass_counts_as_failed.2.1 tAbortThis "1" ⟨[], 7, none⟩ 0 2 rfl
  · exact c10_every_nonpass_counts_as_failed.2.2.1 tAbortAll "1" ⟨[], 7, none⟩ 0 2 rfl

/-- C4: when `readTestCase` skips blank/comment lines and the next
non-trivial line is a name marker, that line is not consumed: it is stored
in the one-line lookahead buffer `_lastLineRead` and `none` is returned;
the immediately following `readTestName` call takes its line from that
buffer — leaving the underlying line reader untouched — and returns the
marker's trimmed name with the buffer cleared. -/
theorem c4_name_marker_buffered :
    ∀ (pre : List String) (l : String) (rest : List String) (cnt : Nat),
      (∀ x ∈ pre, trivialLine x = true) →
      isTestName (startOfData l) = true →
      TD.readTestCase ⟨pre ++ l :: rest, cnt, none⟩ =
        (none, ⟨rest, cnt + pre.length + 1, some l⟩) ∧
      TD.readTestName ⟨rest, cnt + pre.length + 1, some l⟩ =
        (some (extractTestName (startOfData l)), ⟨rest, cnt + pre.length + 1, none⟩) := by
  intro pre l rest cnt hpre hl
  constructor
  · simp [TD.readTestCase, readTestCaseAux_skip pre (l :: rest) cnt hpre, readTestCaseAux, hl]
  · rcases rest with _ | ⟨l2, r2⟩ <;> simp [TD.readTestName, readTestNameAux, hl]

theorem c4_name_marker_buffered_witness :
    TD.readTestCase ⟨["// c", "   ", ":beta", "x"], 0, none⟩ =
      (none, ⟨["x"], 3, some ":beta"⟩) ∧
    TD.readTestName ⟨["x"], 3, some ":beta"⟩ = (some "beta", ⟨["x"], 3, none⟩) := by
  have h := c4_name_marker_buffered ["// c", "   "] ":beta" ["x"] 0 (by decide) (by decide)
  exact ⟨h.1.trans (by decide), h.2.trans (by decide)⟩

/-- C9: a data line — non-blank and, after left-trim, starting with neither
`//` nor `:` — makes `readTestCase` return that line's data content, with
the leading whitespace trimmed away, as the test case text. -/
theorem c9_data_line_returned :
    ∀ (pre : List String) (l : String) (rest : List String) (cnt : Nat),
      (∀ x ∈ pre, trivialLine x = true) →
      isTestName (startOfData l) = false →
      (startOfData l).data.isEmpty = false →
      isComment (startOfData l) = false →
      TD.readTestCase ⟨pre ++ l :: rest, cnt, none⟩ =
        (some (startOfData l), ⟨rest, cnt + pre.length + 1, none⟩) := by
  intro pre l rest cnt hpre h1 h2 h3
  simp [TD.readTestCase, readTestCaseAux_skip pre (l :: rest) cnt hpre, readTestCaseAux,
    h1, h2, h3]

theorem c9_data_line_returned_witness :
    TD.readTestCase ⟨["// note", "", "  1 2 ", ":next"], 5, none⟩ =
      (some "1 2 ", ⟨[":next"], 8, none⟩) := by
  have h := c9_data_line_returned ["// note", ""] "  1 2 " [":next"] 5 (by decide) (by decide)
    (by decide) (by decide)
  exact h.trans (by decide)

/-- C5: in the seek state a block whose name does not resolve in the
selected set is parsed past and its test method never invoked: the driving
loop just calls `readTestName()` again (no events, no statistics), and that
is extensionally the very drain the specification describes — repeatedly
calling `readTestCase()` until it returns `none` (at the next name marker
or end of stream) and then seeking. -/
theorem c5_unmatched_block_drained :
    (∀ (td : TD), td.lastLineRead = none →
        td.readTestName = (drainBySpec td).readTestName) ∧
    (∀ (tests : List Test) (n : String) (td : TD) (tc tf : Nat),
        getTest n tests = none →
        runTestsLoop tests (some n) td tc tf =
          runTestsLoop tests (td.readTestName).1 (td.readTestName).2 tc tf) := by
  constructor
  · intro td h
    obtain ⟨ls, cnt, buf⟩ := td
    obtain rfl : buf = none := h
    exact readTestName_eq_drain ls cnt
  · intro tests n td tc tf hg
    exact runTestsLoop_skip tests n td tc tf hg

theorem c5_unmatched_block_drained_witness :
    (TD.readTestName ⟨["ghost data", "// c", ":beta", "1"], 0, none⟩ =
      (drainBySpec ⟨["ghost data", "// c", ":beta", "1"], 0, none⟩).readTestName) ∧
    runTestsLoop [tAlpha] (some "ghost") ⟨[":tA", "1"], 1, none⟩ 0 0 =
      runTestsLoop [tAlpha] (TD.readTestName ⟨[":tA", "1"], 1, none⟩).1
        (TD.readTestName ⟨[":tA", "1"], 1, none⟩).2 0 0 :=
  ⟨c5_unmatched_block_drained.1 ⟨["ghost data", "// c", ":beta", "1"], 0, none⟩ rfl,
    c5_unmatched_block_drained.2 [tAlpha] "ghost" ⟨[":tA", "1"], 1, none⟩ 0 0 rfl⟩

/-- C6 counterexample: register `tAlpha` then `tBeta`, so `tBeta` is the
most recently registered test and the registry list is `[tBeta, tAlpha]`;
yet on a stream whose first block names `tA`, `all` emits `tA`'s header
first — the run order follows the stream, refuting "the most recently
registered test first". -/
theorem c6_counterexample :
    registerAll [tAlpha, tBeta] = [tBeta, tAlpha] ∧
    (all (registerAll [tAlpha, tBeta]) [":tA", "x", ":tB", "y"]).transcript.head? =
      some (.testHeader "tA") ∧
    ¬ ((all (registerAll [tAlpha, tBeta]) [":tA", "x", ":tB", "y"]).transcript.head? =
        some (.testHeader "tB")) := by
  refine ⟨by simp [registerAll, registerTest], ?_, ?_⟩ <;>
    simp +decide [all, registerAll, registerTest, runTests, runTestsLoop, runTest, runTestGo,
      getTest, tAlpha, tBeta, withEvent, TD.readTestName, readTestNameAux, TD.readTestCase,
      readTestCaseAux]

/-- C6 amended: registration prepends each new definition to the shared
list, so the registry is held in reverse registration order (most recently
registered first) and name lookups scan it in that order; but a "run all"
invokes tests in the order their name markers appear in the test data
stream — the observable transcript order is stream order, not registration
order. -/
theorem c6_amended_registration_prepends :
    (∀ (t : Test) (tests : List Test), registerTest t tests = t :: tests) ∧
    (∀ (defs : List Test), registerAll defs = defs.reverse) ∧
    ((all (registerAll [tAlpha, tBeta]) [":tA", "x", ":tB", "y"]).transcript =
      [.testHeader "tA", .testCasePassed "tA" 1 2, .testFooter "tA" 1 0,
        .testHeader "tB", .testCasePassed "tB" 1 4, .testFooter "tB" 1 0]) := by
  refine ⟨fun t tests => rfl, registerAll_reverse, ?_⟩
  simp +decide [all, registerAll, registerTest, runTests, runTestsLoop, runTest, runTestGo,
    getTest, tAlpha, tBeta, withEvent, TD.readTestName, readTestNameAux, TD.readTestCase,
    readTestCaseAux]

/-- C7: `readLine` treats a read error on the underlying stream exactly
like end of stream — its result does not depend on whether the remaining
characters end by error or by EOF; it returns `none` exactly at end of
stream; and whenever it returns a string, that string is the complete first
line of the stream with its terminator stripped (it contains no newline and
the stream position moves past the terminator) — never a partial or
corrupt line. -/
theorem c7_read_error_is_eof :
    (∀ (cs : List Char) (e1 e2 : Bool),
        (readLine ⟨cs, e1⟩).1 = (readLine ⟨cs, e2⟩).1 ∧
        (readLine ⟨cs, e1⟩).2.chars = (readLine ⟨cs, e2⟩).2.chars) ∧
    (∀ (s : RawStream), (readLine s).1 = none ↔ s.chars = []) ∧
    (∀ (s : RawStream) (l : String) (s2 : RawStream),
        readLine s = (some l, s2) →
        '\n' ∉ l.data ∧
        l.data = s.chars.takeWhile (fun c => c != '\n') ∧
        s2.chars = (s.chars.dropWhile (fun c => c != '\n')).drop 1) := by
  refine ⟨?_, ?_, ?_⟩
  · intro cs e1 e2
    match cs with
    | [] => exact ⟨rfl, rfl⟩
    | c :: rest => exact ⟨rfl, rfl⟩
  · intro s
    obtain ⟨cs, e⟩ := s
    match cs with
    | [] => simp [readLine]
    | c :: rest => simp [readLine]
  · intro s l s2 h
    obtain ⟨cs, e⟩ := s
    match cs with
    | [] => simp [readLine] at h
    | c :: rest =>
      simp only [readLine] at h
      rw [splitAtNewline_spec] at h
      injection h with h1 h2
      injection h1 with h1
      subst h2
      refine ⟨?_, ?_, ?_⟩
      · intro hmem
        rw [← h1] at hmem
        have := List.mem_takeWhile_imp hmem
        simp at this
      · rw [← h1]
      · rfl

theorem c7_read_error_is_eof_witness :
    ('\n' ∉ "ab".data ∧
      "ab".data = ['a', 'b', '\n', 'c'].takeWhile (fun c => c != '\n') ∧
      (⟨['c'], true⟩ : RawStream).chars =
        (['a', 'b', '\n', 'c'].dropWhile (fun c => c != '\n')).drop 1) ∧
    ((readLine ⟨['a', 'b'], true⟩).1 = (readLine ⟨['a', 'b'], false⟩).1) ∧
    ((readLine ⟨[], true⟩).1 = none ↔ ([] : List Char) = []) :=
  ⟨c7_read_error_is_eof.2.2 ⟨['a', 'b', '\n', 'c'], true⟩ "ab" ⟨['c'], true⟩ (by decide),
    (c7_read_error_is_eof.1 ['a', 'b'] true false).1,
    c7_read_error_is_eof.2.1 ⟨[], true⟩⟩

/-- C8: a requested name with no exact registry match is logged and never
fatal: `one` with an unresolved name degrades to the unknown-name warning
plus the "no valid test names" notice, with zero invocations and zero
statistics; `group` logs one warning per absent name, in request order,
and still runs exactly the tests of the names that do resolve. -/
theorem c8_unknown_name_nonfatal :
    (∀ (registry : List Test) (stream : List String) (testName : String),
        getTest testName registry = none →
        one registry stream testName =
          ⟨⟨stream, 0, none⟩, 0, 0, [.unknownTestName testName, .noValidTests]⟩) ∧
    (∀ (registry : List Test) (stream : List String) (names : List String),
        group registry stream names =
          ⟨(runTests ((names.filterMap (fun n => getTest n registry)).reverse)
              ⟨stream, 0, none⟩ 0 0).1,
            (runTests ((names.filterMap (fun n => getTest n registry)).reverse)
              ⟨stream, 0, none⟩ 0 0).2.1,
            (runTests ((names.filterMap (fun n => getTest n registry)).reverse)
              ⟨stream, 0, none⟩ 0 0).2.2.1,
            (names.filter (fun n => (getTest n registry).isNone)).map LogEvent.unknownTestName
              ++ (runTests ((names.filterMap (fun n => getTest n registry)).reverse)
                ⟨stream, 0, none⟩ 0 0).2.2.2⟩) := by
  constructor
  · intro registry stream testName hg
    simp [one, getTests, hg, runTests]
  · intro registry stream names
    simp [group, getTests_spec]

theorem c8_unknown_name_nonfatal_witness :
    one [tAlpha] ["x"] "ghost" =
      ⟨⟨["x"], 0, none⟩, 0, 0, [.unknownTestName "ghost", .noValidTests]⟩ :=
  c8_unknown_name_nonfatal.1 [tAlpha] ["x"] "ghost" rfl

example : startOfData "  : alpha  " = ": alpha  " := by decide
example : isTestName ": alpha" = true := by decide
example : extractTestName ": alpha  " = " alpha" := by decide
example : isComment "// hi" = true := by decide
example :
    TD.readTestName ⟨["// c", "", ":alpha", "x"], 0, none⟩ =
      (some "alpha", ⟨["x"], 3, none⟩) := by decide
example :
    TD.readTestCase ⟨["// c", "1 2", ":beta"], 0, none⟩ =
      (some "1 2", ⟨[":beta"], 2, none⟩) := by decide
example :
    TD.readTestCase ⟨["", ":beta", "y"], 5, none⟩ =
      (none, ⟨["y"], 7, some ":beta"⟩) := by decide

end TestSuite
